import Mathlib

/-!
Verification of scripts/bam2count.py (metawaffle).

Shallow embedding of the write_matrix / sort_BAMtsv / main pipeline.
Python 2 semantics are modelled explicitly: integer division is Nat
floor division, dict lookup failure is a KeyError, division by zero a
ZeroDivisionError, use of an unassigned name a NameError; an exception
aborts the remaining straight-line code.  Float values are modelled by
rationals.
-/

set_option linter.unusedVariables false

/-- Exceptions that the Python code can raise while processing tuples. -/
inductive PyErr where
  | nameError
  | keyError
  | zeroDivisionError
deriving DecidableEq, Repr

/-- Python dict lookup d[a], first matching key. -/
def dictGet {α β : Type} [DecidableEq α] : List (α × β) → α → Option β
  | [], _ => none
  | (k, v) :: rest, a => if k = a then some v else dictGet rest a

/-- Python abs(j - k) for natural j, k. -/
def distJK (j k : Nat) : Nat := if j ≤ k then k - j else j - k

/-- One raw tuple (c, j, k, v) yielded by the chunk merge iterator. -/
structure RawTuple where
  c : String
  j : Nat
  k : Nat
  v : Nat
deriving DecidableEq, Repr

/-- One line written to the output file: pos1, pos2, raw count v, normalized n. -/
structure OutLine where
  pos1 : Nat
  pos2 : Nat
  raw : Nat
  norm : ℚ
deriving DecidableEq, Repr

/-- Result of get_biases_region(biases, bin_coords): bias dicts for both
axes, the decay table, and the bad-bin dicts for both axes. -/
structure BiasesRegion where
  bias1 : List (Nat × ℚ)
  bias2 : List (Nat × ℚ)
  decay : List (String × List (Nat × ℚ))
  bads1 : List Nat
  bads2 : List Nat

/-- Evaluation of v / bias1[j] / bias2[k] / decay[c][abs(j-k)] in Python
order: bias1[j] lookup, division, bias2[k] lookup, division, decay[c]
lookup, distance lookup, division; a missing key raises KeyError, a zero
divisor raises ZeroDivisionError. -/
def normalizeVal (m : BiasesRegion) (c : String) (j k v : Nat) : Except PyErr ℚ :=
  match dictGet m.bias1 j with
  | none => .error .keyError
  | some b1 =>
    if b1 = 0 then .error .zeroDivisionError
    else
      match dictGet m.bias2 k with
      | none => .error .keyError
      | some b2 =>
        if b2 = 0 then .error .zeroDivisionError
        else
          match dictGet m.decay c with
          | none => .error .keyError
          | some dc =>
            match dictGet dc (distJK j k) with
            | none => .error .keyError
            | some d =>
              if d = 0 then .error .zeroDivisionError
              else .ok ((v : ℚ) / b1 / b2 / d)

/-- Body of the write_matrix loop for one raw tuple.  Mirrors lines 57-65:
drop when k < j; otherwise, when j is not in bads1 and k is not in bads2,
normalize and emit at global positions j + start and k + start.  When no
correction model was supplied, bads1 and bads2 are empty and the names
bias1, bias2, decay are unassigned, so reaching the normalization line
raises NameError.  Returns ok none when the tuple is silently dropped. -/
def processTuple (biases : Option BiasesRegion) (start : Nat) (t : RawTuple) :
    Except PyErr (Option OutLine) :=
  if t.k < t.j then .ok none
  else
    let bads1 : List Nat := match biases with | some b => b.bads1 | none => []
    let bads2 : List Nat := match biases with | some b => b.bads2 | none => []
    if t.j ∉ bads1 ∧ t.k ∉ bads2 then
      match biases with
      | none => .error .nameError
      | some m =>
        match normalizeVal m t.c t.j t.k t.v with
        | .error e => .error e
        | .ok n => .ok (some ⟨t.j + start, t.k + start, t.v, n⟩)
    else .ok none

/-- The write_matrix loop over the merged tuple stream: the list of lines
actually written to the output file, together with the exception that
aborted the loop, if any.  An exception stops processing immediately;
lines written before it remain written. -/
def writeMatrixLines (biases : Option BiasesRegion) (start : Nat) :
    List RawTuple → List OutLine × Option PyErr
  | [] => ([], none)
  | t :: ts =>
    match processTuple biases start t with
    | .error e => ([], some e)
    | .ok none => writeMatrixLines biases start ts
    | .ok (some l) =>
      let r := writeMatrixLines biases start ts
      (l :: r.1, r.2)

/-- Final state of one write_matrix call: the output file content, whether
the temporary directory tmpdir/_tmp_hash still exists, and the escaped
exception if any.  The rm -rf of the temporary directory is the last
statement of write_matrix, after the loop and out.close(), with no
try/finally, so it runs exactly when no exception escaped the loop. -/
structure RunState where
  outLines : List OutLine
  tmpdirExists : Bool
  err : Option PyErr
deriving DecidableEq, Repr

/-- One full write_matrix call on the merged stream ts. -/
def write_matrix_run (biases : Option BiasesRegion) (start : Nat)
    (ts : List RawTuple) : RunState :=
  match writeMatrixLines biases start ts with
  | (ls, some e) => ⟨ls, true, some e⟩
  | (ls, none) => ⟨ls, false, none⟩

/-- Lines 34 and 91: sections = OrderedDict of (chromosome, length/resolution + 1)
with Python 2 floor division. -/
def sections (resolution : Nat) (chrms : List (String × Nat)) : List (String × Nat) :=
  chrms.map (fun p => (p.1, p.2 / resolution + 1))

/-- Lines 36-40: the section_pos loop.  Starting from the running total acc,
assigns to each chromosome the half-open range [total, total + size). -/
def section_pos (resolution : Nat) : Nat → List (String × Nat) → List (String × (Nat × Nat))
  | _, [] => []
  | acc, (crm, len) :: rest =>
    let sz := len / resolution + 1
    (crm, (acc, acc + sz)) :: section_pos resolution (acc + sz) rest

theorem section_pos_sizes (resolution : Nat) (acc : Nat) (chrms : List (String × Nat)) :
    ∀ e ∈ section_pos resolution acc chrms,
      ∃ p ∈ chrms, e.1 = p.1 ∧ e.2.2 - e.2.1 = p.2 / resolution + 1 := by
  induction chrms generalizing acc with
  | nil => intro e he; simp [section_pos] at he
  | cons hd tl ih =>
    intro e he
    simp only [section_pos, List.mem_cons] at he
    rcases he with rfl | he
    · refine ⟨hd, List.mem_cons_self _ _, rfl, ?_⟩
      dsimp only
      generalize hd.2 / resolution = q
      omega
    · obtain ⟨p, hp, h1, h2⟩ := ih _ e he
      exact ⟨p, List.mem_cons_of_mem _ hp, h1, h2⟩

theorem section_pos_chain (resolution : Nat) (acc : Nat) (chrms : List (String × Nat)) :
    List.Chain' (fun a b => a.2.2 = b.2.1) (section_pos resolution acc chrms) := by
  induction chrms generalizing acc with
  | nil => simp [section_pos]
  | cons hd tl ih =>
    cases tl with
    | nil => simp [section_pos]
    | cons hd2 tl2 =>
      refine List.Chain'.cons ?_ (ih _)
      rfl

theorem section_pos_start_le (resolution : Nat) (acc : Nat) (chrms : List (String × Nat)) :
    ∀ e ∈ section_pos resolution acc chrms, acc ≤ e.2.1 ∧ e.2.1 < e.2.2 := by
  induction chrms generalizing acc with
  | nil => intro e he; simp [section_pos] at he
  | cons hd tl ih =>
    intro e he
    simp only [section_pos, List.mem_cons] at he
    rcases he with rfl | he
    · constructor
      · dsimp only
        generalize hd.2 / resolution = q
        omega
      · dsimp only
        generalize hd.2 / resolution = q
        omega
    · have h2 := ih _ e he
      revert h2
      generalize hd.2 / resolution = q
      omega

/-- Ranges emitted by section_pos are pairwise non-overlapping, in order:
each range ends before the next begins. -/
theorem section_pos_pairwise (resolution : Nat) (acc : Nat) (chrms : List (String × Nat)) :
    List.Pairwise (fun a b => a.2.2 ≤ b.2.1) (section_pos resolution acc chrms) := by
  induction chrms generalizing acc with
  | nil => simp [section_pos]
  | cons hd tl ih =>
    refine List.Pairwise.cons ?_ (ih _)
    intro e he
    have h := section_pos_start_le resolution _ tl e he
    dsimp only
    revert h
    generalize hd.2 / resolution = q
    omega

theorem processTuple_emit (biases : Option BiasesRegion) (start : Nat) (t : RawTuple)
    (l : OutLine) (h : processTuple biases start t = .ok (some l)) :
    ∃ m, biases = some m ∧ ¬ t.k < t.j ∧ t.j ∉ m.bads1 ∧ t.k ∉ m.bads2 ∧
      ∃ n, normalizeVal m t.c t.j t.k t.v = .ok n ∧
        l = ⟨t.j + start, t.k + start, t.v, n⟩ := by
  cases biases with
  | none =>
    unfold processTuple at h
    by_cases htri : t.k < t.j
    · rw [if_pos htri] at h
      simp at h
    · rw [if_neg htri] at h
      dsimp only at h
      split at h <;> simp_all
  | some m =>
    unfold processTuple at h
    by_cases htri : t.k < t.j
    · rw [if_pos htri] at h
      simp at h
    · rw [if_neg htri] at h
      dsimp only at h
      by_cases hbad : t.j ∉ m.bads1 ∧ t.k ∉ m.bads2
      · rw [if_pos hbad] at h
        cases hn : normalizeVal m t.c t.j t.k t.v with
        | error e => rw [hn] at h; simp at h
        | ok n =>
          rw [hn] at h
          simp only [Except.ok.injEq, Option.some.injEq] at h
          exact ⟨m, rfl, htri, hbad.1, hbad.2, n, hn, h.symm⟩
      · rw [if_neg hbad] at h
        simp at h

theorem normalizeVal_ok (m : BiasesRegion) (c : String) (j k v : Nat) (n : ℚ)
    (h : normalizeVal m c j k v = .ok n) :
    ∃ b1 b2 dc d,
      dictGet m.bias1 j = some b1 ∧ dictGet m.bias2 k = some b2 ∧
      dictGet m.decay c = some dc ∧ dictGet dc (distJK j k) = some d ∧
      b1 ≠ 0 ∧ b2 ≠ 0 ∧ d ≠ 0 ∧ n = (v : ℚ) / b1 / b2 / d := by
  unfold normalizeVal at h
  cases h1 : dictGet m.bias1 j with
  | none => rw [h1] at h; simp at h
  | some b1 =>
    rw [h1] at h
    dsimp only at h
    by_cases hz1 : b1 = 0
    · rw [if_pos hz1] at h; simp at h
    · rw [if_neg hz1] at h
      cases h2 : dictGet m.bias2 k with
      | none => rw [h2] at h; simp at h
      | some b2 =>
        rw [h2] at h
        dsimp only at h
        by_cases hz2 : b2 = 0
        · rw [if_pos hz2] at h; simp at h
        · rw [if_neg hz2] at h
          cases h3 : dictGet m.decay c with
          | none => rw [h3] at h; simp at h
          | some dc =>
            rw [h3] at h
            dsimp only at h
            cases h4 : dictGet dc (distJK j k) with
            | none => rw [h4] at h; simp at h
            | some d =>
              rw [h4] at h
              dsimp only at h
              by_cases hz3 : d = 0
              · rw [if_pos hz3] at h; simp at h
              · rw [if_neg hz3] at h
                simp only [Except.ok.injEq] at h
                exact ⟨b1, b2, dc, d, rfl, rfl, rfl, h4, hz1, hz2, hz3, h.symm⟩

/-- Claim C1: a raw tuple with k < j is silently dropped by the write_matrix
loop, and consequently every line written to a region file has its column
bin index at least its row bin index. -/
theorem C1_triangle (biases : Option BiasesRegion) (start : Nat) :
    (∀ t : RawTuple, t.k < t.j → processTuple biases start t = .ok none) ∧
    (∀ ts : List RawTuple, ∀ l ∈ (writeMatrixLines biases start ts).1,
      l.pos1 ≤ l.pos2) := by
  constructor
  · intro t ht
    unfold processTuple
    rw [if_pos ht]
  · intro ts
    induction ts with
    | nil => intro l hl; simp [writeMatrixLines] at hl
    | cons t ts ih =>
      intro l hl
      rw [writeMatrixLines] at hl
      cases hp : processTuple biases start t with
      | error e => rw [hp] at hl; simp at hl
      | ok o =>
        cases o with
        | none => rw [hp] at hl; exact ih l hl
        | some l0 =>
          rw [hp] at hl
          dsimp only at hl
          simp only [List.mem_cons] at hl
          rcases hl with rfl | hl
          · obtain ⟨m, _, htri, _, _, n, _, rfl⟩ :=
              processTuple_emit biases start t _ hp
            dsimp only
            omega
          · exact ih l hl

theorem C1_triangle_witness :
    processTuple none 0 ⟨"chr1", 2, 1, 5⟩ = .ok none ∧
    (∀ l ∈ (writeMatrixLines none 0 [⟨"chr1", 2, 1, 5⟩]).1, l.pos1 ≤ l.pos2) :=
  ⟨(C1_triangle none 0).1 ⟨"chr1", 2, 1, 5⟩ (by decide),
   (C1_triangle none 0).2 [⟨"chr1", 2, 1, 5⟩]⟩

/-- Example correction model with all factors 1: bin 0 on axis 1, bin 1 on
axis 2, decay 1 at distance 1 on chr1, no bad bins. -/
def exModelOnes : BiasesRegion :=
  ⟨[(0, 1)], [(1, 1)], [("chr1", [(1, 1)])], [], []⟩

/-- Example correction model whose axis-1 bias for bin 0 is zero. -/
def exModelZero : BiasesRegion :=
  ⟨[(0, 0)], [(1, 1)], [("chr1", [(1, 1)])], [], []⟩

/-- Example correction model with no decay entry for chr1. -/
def exModelNoDecay : BiasesRegion :=
  ⟨[(0, 1)], [(1, 1)], [], [], []⟩

/-- Claim C2 (code bug): with no correction model supplied the code does not
skip normalization; bias1, bias2 and decay are unassigned names, so the
first tuple that survives the triangle and bad-bin filters raises
NameError and nothing is written, where the claim expects the tuple
written with normalized equal to raw. -/
theorem C2_no_model_crash :
    processTuple none 0 ⟨"chr1", 0, 1, 5⟩ = .error PyErr.nameError ∧
    (writeMatrixLines none 0 [⟨"chr1", 0, 1, 5⟩]).1 = [] ∧
    (writeMatrixLines none 0 [⟨"chr1", 0, 1, 5⟩]).2 = some PyErr.nameError := by
  refine ⟨rfl, rfl, rfl⟩

/-- Claim C3, counterexample: a zero bias factor or a missing decay entry
does not drop the entry and continue; processTuple raises (result is an
exception, not ok none), and the loop aborts so the following tuple is
never processed. -/
theorem C3_counterexample :
    processTuple (some exModelZero) 0 ⟨"chr1", 0, 1, 5⟩ =
      .error PyErr.zeroDivisionError ∧
    processTuple (some exModelZero) 0 ⟨"chr1", 0, 1, 5⟩ ≠ .ok none ∧
    processTuple (some exModelNoDecay) 0 ⟨"chr1", 0, 1, 5⟩ =
      .error PyErr.keyError ∧
    (writeMatrixLines (some exModelZero) 0
        [⟨"chr1", 0, 1, 5⟩, ⟨"chr1", 1, 1, 7⟩]).2 = some PyErr.zeroDivisionError ∧
    (writeMatrixLines (some exModelZero) 0
        [⟨"chr1", 0, 1, 5⟩, ⟨"chr1", 1, 1, 7⟩]).1 = [] := by
  refine ⟨rfl, ?_, rfl, rfl, rfl⟩
  simp [processTuple, exModelZero, normalizeVal, dictGet, distJK]

/-- Claim C3 (amended): for a raw tuple that passes the triangle and
bad-bin filters, a zero bias factor for j or k, or a missing decay entry
for chromosome c or for the distance abs(j-k), makes write_matrix raise an
uncaught exception (ZeroDivisionError or KeyError) instead of dropping the
entry and continuing. -/
theorem C3_fatal_on_zero_or_missing (m : BiasesRegion) (s : Nat) (t : RawTuple)
    (htri : ¬ t.k < t.j) (hb : t.j ∉ m.bads1 ∧ t.k ∉ m.bads2)
    (hfail : dictGet m.bias1 t.j = some 0 ∨ dictGet m.bias2 t.k = some 0 ∨
      dictGet m.decay t.c = none ∨
      (∀ dc, dictGet m.decay t.c = some dc → dictGet dc (distJK t.j t.k) = none)) :
    ∃ e, processTuple (some m) s t = .error e := by
  unfold processTuple
  rw [if_neg htri]
  dsimp only
  rw [if_pos hb]
  suffices hs : ∃ e, normalizeVal m t.c t.j t.k t.v = .error e by
    obtain ⟨e, he⟩ := hs
    exact ⟨e, by rw [he]⟩
  unfold normalizeVal
  cases h1 : dictGet m.bias1 t.j with
  | none => exact ⟨.keyError, rfl⟩
  | some b1 =>
    dsimp only
    by_cases hz1 : b1 = 0
    · rw [if_pos hz1]; exact ⟨.zeroDivisionError, rfl⟩
    · rw [if_neg hz1]
      cases h2 : dictGet m.bias2 t.k with
      | none => exact ⟨.keyError, rfl⟩
      | some b2 =>
        dsimp only
        by_cases hz2 : b2 = 0
        · rw [if_pos hz2]; exact ⟨.zeroDivisionError, rfl⟩
        · rw [if_neg hz2]
          cases h3 : dictGet m.decay t.c with
          | none => exact ⟨.keyError, rfl⟩
          | some dc =>
            dsimp only
            cases h4 : dictGet dc (distJK t.j t.k) with
            | none => exact ⟨.keyError, rfl⟩
            | some d =>
              dsimp only
              by_cases hzd : d = 0
              · rw [if_pos hzd]; exact ⟨.zeroDivisionError, rfl⟩
              · exfalso
                rcases hfail with hf | hf | hf | hf
                · rw [h1] at hf
                  simp only [Option.some.injEq] at hf
                  exact hz1 hf
                · rw [h2] at hf
                  simp only [Option.some.injEq] at hf
                  exact hz2 hf
                · rw [h3] at hf
                  cases hf
                · have := hf dc h3
                  rw [h4] at this
                  cases this

theorem C3_fatal_witness :
    ∃ e, processTuple (some exModelZero) 0 ⟨"chr1", 0, 1, 5⟩ = .error e :=
  C3_fatal_on_zero_or_missing exModelZero 0 ⟨"chr1", 0, 1, 5⟩
    (by decide) (by decide) (Or.inl (by decide))

/-- Claim C5: every entry emitted under a supplied correction model is
exactly (j + start, k + start, v, v / bias1[j] / bias2[k] / decay[c][abs(j-k)]),
with the section start of the region added to both local bin indices. -/
theorem C5_emitted_form (m : BiasesRegion) (s : Nat) (t : RawTuple) (l : OutLine)
    (h : processTuple (some m) s t = .ok (some l)) :
    ∃ b1 b2 dc d,
      dictGet m.bias1 t.j = some b1 ∧ dictGet m.bias2 t.k = some b2 ∧
      dictGet m.decay t.c = some dc ∧ dictGet dc (distJK t.j t.k) = some d ∧
      l = ⟨t.j + s, t.k + s, t.v, (t.v : ℚ) / b1 / b2 / d⟩ := by
  obtain ⟨m2, hm2, htri, hb1, hb2, n, hn, hl⟩ := processTuple_emit (some m) s t l h
  obtain rfl : m = m2 := by injection hm2
  obtain ⟨b1, b2, dc, d, e1, e2, e3, e4, _, _, _, rfl⟩ :=
    normalizeVal_ok m t.c t.j t.k t.v n hn
  exact ⟨b1, b2, dc, d, e1, e2, e3, e4, hl⟩

theorem C5_emitted_form_witness :
    ∃ b1 b2 dc d,
      dictGet exModelOnes.bias1 0 = some b1 ∧ dictGet exModelOnes.bias2 1 = some b2 ∧
      dictGet exModelOnes.decay "chr1" = some dc ∧ dictGet dc (distJK 0 1) = some d ∧
      (⟨3, 4, 8, 8⟩ : OutLine) = ⟨0 + 3, 1 + 3, 8, (8 : ℚ) / b1 / b2 / d⟩ :=
  C5_emitted_form exModelOnes 3 ⟨"chr1", 0, 1, 8⟩ ⟨3, 4, 8, 8⟩
    (by simp [processTuple, exModelOnes, normalizeVal, dictGet, distJK])

/-- Claim C7: the run temporary directory is removed exactly when the whole
region loop finished without an exception; after any failure mid-merge or
mid-write the directory still exists, because the rm -rf is the last
statement and there is no try/finally. -/
theorem C7_cleanup_iff (biases : Option BiasesRegion) (start : Nat)
    (ts : List RawTuple) :
    ((write_matrix_run biases start ts).tmpdirExists = false ↔
      (writeMatrixLines biases start ts).2 = none) ∧
    (write_matrix_run biases start ts).err = (writeMatrixLines biases start ts).2 ∧
    (write_matrix_run biases start ts).outLines = (writeMatrixLines biases start ts).1 := by
  unfold write_matrix_run
  rcases hw : writeMatrixLines biases start ts with ⟨ls, err⟩
  cases err <;> simp

/-- Claim C8, counterexample: a raw tuple with count 0 that passes the
triangle and bad-bin filters is written (with normalized value 0), not
dropped. -/
theorem C8_counterexample :
    processTuple (some exModelOnes) 0 ⟨"chr1", 0, 1, 0⟩ =
      .ok (some ⟨0, 1, 0, 0⟩) ∧
    (writeMatrixLines (some exModelOnes) 0 [⟨"chr1", 0, 1, 0⟩]).1 =
      [⟨0, 1, 0, 0⟩] ∧
    (writeMatrixLines (some exModelOnes) 0 [⟨"chr1", 0, 1, 0⟩]).1 ≠ [] := by
  refine ⟨?_, ?_, ?_⟩ <;>
    simp [processTuple, writeMatrixLines, exModelOnes, normalizeVal, dictGet, distJK]

/-- Claim C8 (amended): a raw tuple with count 0 that passes the triangle
and bad-bin filters, and whose bias and decay lookups succeed with nonzero
factors, is emitted with normalized value 0 rather than dropped. -/
theorem C8_zero_count_emitted (m : BiasesRegion) (s : Nat) (t : RawTuple)
    (htri : ¬ t.k < t.j) (hb : t.j ∉ m.bads1 ∧ t.k ∉ m.bads2) (hv : t.v = 0)
    (b1 b2 : ℚ) (dc : List (Nat × ℚ)) (d : ℚ)
    (h1 : dictGet m.bias1 t.j = some b1) (hz1 : b1 ≠ 0)
    (h2 : dictGet m.bias2 t.k = some b2) (hz2 : b2 ≠ 0)
    (h3 : dictGet m.decay t.c = some dc)
    (h4 : dictGet dc (distJK t.j t.k) = some d) (hz3 : d ≠ 0) :
    processTuple (some m) s t = .ok (some ⟨t.j + s, t.k + s, 0, 0⟩) := by
  unfold processTuple
  rw [if_neg htri]
  dsimp only
  rw [if_pos hb]
  unfold normalizeVal
  rw [h1]
  dsimp only
  rw [if_neg hz1, h2]
  dsimp only
  rw [if_neg hz2, h3]
  dsimp only
  rw [h4]
  dsimp only
  rw [if_neg hz3, hv]
  simp [zero_div]

theorem C8_zero_count_witness :
    processTuple (some exModelOnes) 0 ⟨"chr1", 0, 1, 0⟩ =
      .ok (some ⟨0 + 0, 1 + 0, 0, 0⟩) :=
  C8_zero_count_emitted exModelOnes 0 ⟨"chr1", 0, 1, 0⟩ (by decide) (by decide)
    rfl 1 1 [(1, 1)] 1 (by decide) (by decide) (by decide) (by decide)
    (by decide) (by decide) (by decide)

theorem section_pos_names (resolution : Nat) (acc : Nat) (chrms : List (String × Nat)) :
    (section_pos resolution acc chrms).map (fun e => e.1) = chrms.map Prod.fst := by
  induction chrms generalizing acc with
  | nil => rfl
  | cons hd tl ih => simp [section_pos, ih]

/-- Claim C4, counterexample: at resolution 10000 a chromosome of length
30000 gets the half-open range [0, 4) of size 4, while ceil(30000/10000)
is 3; the code computes length/resolution + 1 with floor division, which
differs from the ceiling whenever the resolution divides the length. -/
theorem C4_counterexample :
    section_pos 10000 0 [("chr1", 30000)] = [("chr1", (0, 4))] ∧
    (30000 + 10000 - 1) / 10000 = 3 ∧
    ¬ (4 - 0 = (30000 + 10000 - 1) / 10000) := by
  refine ⟨rfl, by norm_num, by norm_num⟩

/-- Claim C4 (amended): for every resolution r > 0 and ordered list of
chromosomes with distinct names, the section offsets form contiguous,
non-overlapping, nonempty half-open ranges in declaration order starting
at 0, and each range has size end - start = length/r + 1 (floor division),
not ceil(length/r). -/
theorem C4_section_offsets (resolution : Nat) (chrms : List (String × Nat))
    (hres : 0 < resolution) (hnames : (chrms.map Prod.fst).Nodup) :
    ((section_pos resolution 0 chrms).map (fun e => e.1) = chrms.map Prod.fst) ∧
    (∀ e ∈ section_pos resolution 0 chrms,
      ∃ p ∈ chrms, e.1 = p.1 ∧ e.2.2 - e.2.1 = p.2 / resolution + 1) ∧
    List.Chain' (fun a b => a.2.2 = b.2.1) (section_pos resolution 0 chrms) ∧
    List.Pairwise (fun a b => a.2.2 ≤ b.2.1) (section_pos resolution 0 chrms) ∧
    (∀ e ∈ section_pos resolution 0 chrms, e.2.1 < e.2.2) ∧
    (∀ e, (section_pos resolution 0 chrms).head? = some e → e.2.1 = 0) := by
  refine ⟨section_pos_names resolution 0 chrms,
    section_pos_sizes resolution 0 chrms,
    section_pos_chain resolution 0 chrms,
    section_pos_pairwise resolution 0 chrms,
    fun e he => (section_pos_start_le resolution 0 chrms e he).2, ?_⟩
  intro e he
  cases chrms with
  | nil => simp [section_pos] at he
  | cons hd tl =>
    simp only [section_pos, List.head?_cons, Option.some.injEq] at he
    rw [← he]

theorem C4_section_offsets_witness :
    ((section_pos 10000 0 [("chr1", 30000), ("chr2", 25000)]).map (fun e => e.1) =
      [("chr1", 30000), ("chr2", 25000)].map Prod.fst) ∧
    (∀ e ∈ section_pos 10000 0 [("chr1", 30000), ("chr2", 25000)],
      ∃ p ∈ [("chr1", 30000), ("chr2", 25000)],
        e.1 = p.1 ∧ e.2.2 - e.2.1 = p.2 / 10000 + 1) ∧
    List.Chain' (fun a b => a.2.2 = b.2.1)
      (section_pos 10000 0 [("chr1", 30000), ("chr2", 25000)]) ∧
    List.Pairwise (fun a b => a.2.2 ≤ b.2.1)
      (section_pos 10000 0 [("chr1", 30000), ("chr2", 25000)]) ∧
    (∀ e ∈ section_pos 10000 0 [("chr1", 30000), ("chr2", 25000)], e.2.1 < e.2.2) ∧
    (∀ e, (section_pos 10000 0 [("chr1", 30000), ("chr2", 25000)]).head? = some e →
      e.2.1 = 0) :=
  C4_section_offsets 10000 [("chr1", 30000), ("chr2", 25000)]
    (by norm_num) (by decide)

/-- Model of posixpath.join(a, b) on character lists: if b is absolute it
discards a; otherwise it inserts a slash unless a is empty or already ends
with one. -/
def pathJoin (a b : List Char) : List Char :=
  if b.head? = some '/' then b
  else if a = [] then b
  else if a.getLast? = some '/' then a ++ b
  else a ++ '/' :: b

/-- Line 52: fnam = outdir + region1 + "_bam_" + str(resolution / 1000) + "kb.tsv",
with Python 2 floor division for the kilobase figure. -/
def outFileName (outdir region1 : List Char) (resolution : Nat) : List Char :=
  outdir ++ region1 ++ "_bam_".toList ++ (Nat.repr (resolution / 1000)).toList
    ++ "kb.tsv".toList

/-- Line 54: the file actually opened is os.path.join(outdir, fnam), where
fnam already begins with outdir. -/
def outFilePath (outdir region1 : List Char) (resolution : Nat) : List Char :=
  pathJoin outdir (outFileName outdir region1 resolution)

/-- Line 65: one output line, row TAB col TAB raw TAB normalized NEWLINE. -/
def formatLine (l : OutLine) : List Char :=
  (Nat.repr l.pos1).toList ++ '\t' :: (Nat.repr l.pos2).toList
    ++ '\t' :: (Nat.repr l.raw).toList ++ '\t' :: (toString l.norm).toList ++ ['\n']

/-- Claim C6, counterexample: for the relative output directory "out/" the
file is opened at "out/out/chr1_bam_10kb.tsv", with the output directory
appearing twice as prefix, not once as the claim states. -/
theorem C6_counterexample :
    outFilePath "out/".toList "chr1".toList 10000 =
      "out/out/chr1_bam_10kb.tsv".toList ∧
    outFilePath "out/".toList "chr1".toList 10000 ≠
      "out/chr1_bam_10kb.tsv".toList := by
  refine ⟨by decide, by decide⟩

/-- Claim C6 (amended): the opened path is os.path.join(outdir, outdir +
region + "_bam_" + kb + "kb.tsv").  When outdir is absolute the join
returns its second argument, so the path starts with a single copy of
outdir; when outdir is relative and nonempty the path contains outdir
twice, separated by a slash unless outdir already ends with one.  Each
retained entry produces one line with tab-separated fields in the order
row, col, raw count, normalized value. -/
theorem C6_path_and_format :
    (∀ (o r : List Char) (res : Nat), o.head? = some '/' →
      outFilePath o r res =
        o ++ r ++ "_bam_".toList ++ (Nat.repr (res / 1000)).toList ++ "kb.tsv".toList) ∧
    (∀ (o r : List Char) (res : Nat), o ≠ [] → o.head? ≠ some '/' →
      ∃ sep, (sep = [] ∨ sep = ['/']) ∧
        outFilePath o r res =
          o ++ sep ++ o ++ r ++ "_bam_".toList ++ (Nat.repr (res / 1000)).toList
            ++ "kb.tsv".toList) ∧
    (∀ l : OutLine,
      formatLine l = List.intercalate ['\t']
        [(Nat.repr l.pos1).toList, (Nat.repr l.pos2).toList,
         (Nat.repr l.raw).toList, (toString l.norm).toList] ++ ['\n']) := by
  refine ⟨?_, ?_, ?_⟩
  · intro o r res ho
    unfold outFilePath pathJoin outFileName
    have hne : o ≠ [] := by
      intro h; rw [h] at ho; simp at ho
    have hhead : (o ++ r ++ "_bam_".toList ++ (Nat.repr (res / 1000)).toList
        ++ "kb.tsv".toList).head? = some '/' := by
      cases o with
      | nil => simp at ho
      | cons c cs => simp_all
    rw [if_pos hhead]
  · intro o r res hne ho
    unfold outFilePath pathJoin outFileName
    have hhead : (o ++ r ++ "_bam_".toList ++ (Nat.repr (res / 1000)).toList
        ++ "kb.tsv".toList).head? ≠ some '/' := by
      cases o with
      | nil => exact absurd rfl hne
      | cons c cs => simp_all
    rw [if_neg hhead, if_neg hne]
    by_cases hlast : o.getLast? = some '/'
    · rw [if_pos hlast]
      exact ⟨[], Or.inl rfl, by simp⟩
    · rw [if_neg hlast]
      exact ⟨['/'], Or.inr rfl, by simp⟩
  · intro l
    simp [formatLine, List.intercalate]

theorem C6_path_and_format_witness :
    outFilePath "/data/".toList "chr1".toList 10000 =
      "/data/".toList ++ "chr1".toList ++ "_bam_".toList
        ++ (Nat.repr (10000 / 1000)).toList ++ "kb.tsv".toList ∧
    (∃ sep, (sep = [] ∨ sep = ['/']) ∧
      outFilePath "out".toList "chr1".toList 10000 =
        "out".toList ++ sep ++ "out".toList ++ "chr1".toList ++ "_bam_".toList
          ++ (Nat.repr (10000 / 1000)).toList ++ "kb.tsv".toList) :=
  ⟨C6_path_and_format.1 "/data/".toList "chr1".toList 10000 (by decide),
   C6_path_and_format.2.1 "out".toList "chr1".toList 10000 (by decide) (by decide)⟩

/-- Blank bytes for sort key splitting: space (32) and tab (9). -/
def isBlankB (b : Nat) : Bool := b == 32 || b == 9

/-- ASCII digit bytes 48-57. -/
def isDigitB (b : Nat) : Bool := decide (48 ≤ b) && decide (b ≤ 57)

/-- Value of a string of ASCII digit bytes. -/
def digitsToNat (ds : List Nat) : Nat := ds.foldl (fun acc d => acc * 10 + (d - 48)) 0

/-- Numeric value of a sort key: skip leading blanks, read leading digits. -/
def numKeyAt (l : List Nat) : Nat :=
  digitsToNat ((l.dropWhile isBlankB).takeWhile isDigitB)

/-- Rest of the line after field 1 (leading blanks plus the first run of
non-blanks); this is where the key -k2n starts. -/
def restAfterField1 (l : List Nat) : List Nat :=
  (l.dropWhile isBlankB).dropWhile (fun b => ! isBlankB b)

/-- Numeric value of column 1 of a line (key -k1n). -/
def num1 (l : List Nat) : Nat := numKeyAt l

/-- Numeric value of column 2 of a line (key -k2n). -/
def num2 (l : List Nat) : Nat := numKeyAt (restAfterField1 l)

/-- Byte-wise lexicographic comparison, the POSIX sort last-resort
comparison applied when all keys compare equal (no -s given). -/
def bytesLE : List Nat → List Nat → Bool
  | [], _ => true
  | _ :: _, [] => false
  | a :: as, b :: bs => if a < b then true else if b < a then false else bytesLE as bs

/-- Full comparator of "sort -k1n -k2n" without -s: numeric column 1, then
numeric column 2, then last-resort whole-line byte order. -/
def lineLE (a b : List Nat) : Bool :=
  if num1 a < num1 b then true
  else if num1 b < num1 a then false
  else if num2 a < num2 b then true
  else if num2 b < num2 a then false
  else bytesLE a b

/-- Comparator using only the numeric keys of columns 1 and 2: what the
claim means by "sorted numerically by column 1 then column 2". -/
def numKeyLE (a b : List Nat) : Bool :=
  if num1 a < num1 b then true
  else if num1 b < num1 a then false
  else decide (num2 a ≤ num2 b)

/-- Lines 75-81: one run of "sort -k1n -k2n tsv -o tsv" on the lines of
one file. -/
def sort_BAMtsv (ls : List (List Nat)) : List (List Nat) := ls.mergeSort lineLE

theorem bytesLE_total (a b : List Nat) : bytesLE a b || bytesLE b a := by
  induction a generalizing b with
  | nil => simp [bytesLE]
  | cons x xs ih =>
    cases b with
    | nil => simp [bytesLE]
    | cons y ys =>
      simp only [bytesLE]
      by_cases h1 : x < y
      · have h2 : ¬ y < x := by omega
        simp [h1, h2]
      · by_cases h2 : y < x
        · simp [h1, h2]
        · simp [h1, h2, ih ys]

theorem bytesLE_trans : ∀ (a b c : List Nat), bytesLE a b → bytesLE b c → bytesLE a c
  | [], _, _, _, _ => by simp [bytesLE]
  | x :: xs, [], _, h1, _ => by simp [bytesLE] at h1
  | x :: xs, y :: ys, [], _, h2 => by simp [bytesLE] at h2
  | x :: xs, y :: ys, z :: zs, h1, h2 => by
    simp only [bytesLE] at h1 h2 ⊢
    rcases Nat.lt_trichotomy x y with hxy | hxy | hxy
    · rcases Nat.lt_trichotomy y z with hyz | hyz | hyz
      · have hxz : x < z := by omega
        simp [hxz]
      · have hxz : x < z := by omega
        simp [hxz]
      · have hne1 : ¬ y < z := by omega
        simp [hne1, hyz] at h2
    · rcases Nat.lt_trichotomy y z with hyz | hyz | hyz
      · have hxz : x < z := by omega
        simp [hxz]
      · have hr1 : ¬ x < y := by omega
        have hr2 : ¬ y < x := by omega
        have hr3 : ¬ y < z := by omega
        have hr4 : ¬ z < y := by omega
        have hr5 : ¬ x < z := by omega
        have hr6 : ¬ z < x := by omega
        simp only [if_neg hr1, if_neg hr2] at h1
        simp only [if_neg hr3, if_neg hr4] at h2
        simp only [if_neg hr5, if_neg hr6]
        exact bytesLE_trans xs ys zs h1 h2
      · have hne1 : ¬ y < z := by omega
        simp [hne1, hyz] at h2
    · have hne1 : ¬ x < y := by omega
      simp [hne1, hxy] at h1

theorem lineLE_iff (a b : List Nat) :
    lineLE a b = true ↔
      num1 a < num1 b ∨ (num1 a = num1 b ∧ (num2 a < num2 b ∨
        (num2 a = num2 b ∧ bytesLE a b = true))) := by
  unfold lineLE
  split_ifs with h1 h2 h3 h4
  · simp [h1]
  · constructor
    · intro h; cases h
    · intro h
      exfalso
      rcases h with h | ⟨h, _⟩ <;> omega
  · have e1 : num1 a = num1 b := by omega
    simp [e1, h3]
  · constructor
    · intro h; cases h
    · intro h
      exfalso
      rcases h with h | ⟨h, h5⟩
      · omega
      · rcases h5 with h5 | ⟨h5, _⟩ <;> omega
  · have e1 : num1 a = num1 b := by omega
    have e2 : num2 a = num2 b := by omega
    simp [e1, e2]

theorem lineLE_trans (a b c : List Nat) (h1 : lineLE a b) (h2 : lineLE b c) :
    lineLE a c := by
  rw [lineLE_iff] at h1 h2 ⊢
  rcases h1 with h1 | ⟨e1, h1⟩
  · rcases h2 with h2 | ⟨e2, _⟩
    · exact Or.inl (by omega)
    · exact Or.inl (by omega)
  · rcases h2 with h2 | ⟨e2, h2⟩
    · exact Or.inl (by omega)
    · refine Or.inr ⟨by omega, ?_⟩
      rcases h1 with h1 | ⟨f1, hb1⟩
      · rcases h2 with h2 | ⟨f2, _⟩
        · exact Or.inl (by omega)
        · exact Or.inl (by omega)
      · rcases h2 with h2 | ⟨f2, hb2⟩
        · exact Or.inl (by omega)
        · exact Or.inr ⟨by omega, bytesLE_trans a b c hb1 hb2⟩

theorem lineLE_total (a b : List Nat) : lineLE a b || lineLE b a := by
  simp only [Bool.or_eq_true, lineLE_iff]
  have hb := bytesLE_total a b
  simp only [Bool.or_eq_true] at hb
  rcases Nat.lt_trichotomy (num1 a) (num1 b) with h1 | h1 | h1
  · exact Or.inl (Or.inl h1)
  · rcases Nat.lt_trichotomy (num2 a) (num2 b) with h2 | h2 | h2
    · exact Or.inl (Or.inr ⟨h1, Or.inl h2⟩)
    · rcases hb with hb | hb
      · exact Or.inl (Or.inr ⟨h1, Or.inr ⟨h2, hb⟩⟩)
      · exact Or.inr (Or.inr ⟨h1.symm, Or.inr ⟨h2.symm, hb⟩⟩)
    · exact Or.inr (Or.inr ⟨h1.symm, Or.inl h2⟩)
  · exact Or.inr (Or.inl h1)

theorem mergeSort_pair {α : Type} (le : α → α → Bool) (x y : α) :
    List.mergeSort [x, y] le = if le x y then [x, y] else [y, x] := by
  rw [List.mergeSort]
  simp [List.splitInTwo, List.splitAt, List.splitAt.go, List.merge]

/-- Bytes of the line "1 TAB 2 TAB a". -/
def lineA : List Nat := [49, 9, 50, 9, 97]

/-- Bytes of the line "1 TAB 2 TAB b". -/
def lineB : List Nat := [49, 9, 50, 9, 98]

/-- Claim C9, counterexample: the two-line file with lines "1 TAB 2 TAB b"
then "1 TAB 2 TAB a" is already sorted numerically by column 1 then column
2 (both keys are equal), yet the sort reorders it by the last-resort
whole-line comparison, so the result is not byte-identical to the input. -/
theorem C9_counterexample :
    List.Pairwise (fun a b => numKeyLE a b) [lineB, lineA] ∧
    sort_BAMtsv [lineB, lineA] = [lineA, lineB] ∧
    sort_BAMtsv [lineB, lineA] ≠ [lineB, lineA] := by
  have h2 : sort_BAMtsv [lineB, lineA] = [lineA, lineB] := by
    unfold sort_BAMtsv
    rw [mergeSort_pair]
    rw [show lineLE lineB lineA = false from by decide]
    simp
  refine ⟨by decide, h2, by rw [h2]; decide⟩

/-- Claim C9 (amended): the external sort is idempotent as a function
(running it twice produces the same bytes as running it once), and a file
already sorted by the full sort comparator, numeric column 1, numeric
column 2, then the last-resort whole-line byte order, is left byte
identical; a file sorted merely by the two numeric keys can be reordered
when those keys tie. -/
theorem C9_sort_idempotent :
    (∀ ls : List (List Nat), sort_BAMtsv (sort_BAMtsv ls) = sort_BAMtsv ls) ∧
    (∀ ls : List (List Nat),
      List.Pairwise (fun a b => lineLE a b) ls → sort_BAMtsv ls = ls) := by
  constructor
  · intro ls
    exact List.mergeSort_of_sorted
      (List.sorted_mergeSort lineLE_trans lineLE_total ls)
  · intro ls h
    exact List.mergeSort_of_sorted h

theorem C9_sort_idempotent_witness :
    sort_BAMtsv [lineA, lineB] = [lineA, lineB] :=
  C9_sort_idempotent.2 [lineA, lineB] (by decide)

/-- Python float value as stored in the pickled model: a number or NaN. -/
inductive PyFloat where
  | nan
  | num (q : ℚ)
deriving DecidableEq

/-- math.isnan on the modelled float. -/
def isnan : PyFloat → Bool
  | .nan => true
  | .num _ => false

/-- Content of the pickled correction model file: the badcol, biases and
decay entries read by main (lines 94-99). -/
structure PickleBiases where
  badcol : List (Nat × ℚ)
  biases : List (Nat × PyFloat)
  decay : List (String × List (Nat × ℚ))

/-- Lines 83-105: main.  It loads the pickle, extracts badcol, the
NaN-filtered bias dictionary and decay, then for every chromosome calls
write_matrix with the biases FILE PATH only; the extracted structures are
not arguments.  The external read_bam / get_biases_region pipeline that
write_matrix runs on that path is modelled by regionData, giving for each
chromosome the region biases, the section start and the merged tuple
stream. -/
def main_run (resolution : Nat) (chrms : List (String × Nat))
    (pickle : PickleBiases)
    (regionData : String → Option BiasesRegion × Nat × List RawTuple) :
    List RunState :=
  let bads := pickle.badcol
  let all_biases := pickle.biases
  let bias := all_biases.filter (fun p => ! isnan p.2)
  let decay := pickle.decay
  (sections resolution chrms).map (fun p =>
    write_matrix_run (regionData p.1).1 (regionData p.1).2.1 (regionData p.1).2.2)

/-- main with the pickle-extraction and NaN-filtering statements removed. -/
def main_run_stripped (resolution : Nat) (chrms : List (String × Nat))
    (regionData : String → Option BiasesRegion × Nat × List RawTuple) :
    List RunState :=
  (sections resolution chrms).map (fun p =>
    write_matrix_run (regionData p.1).1 (regionData p.1).2.1 (regionData p.1).2.2)

/-- Claim C10: the structures main extracts from the pickle (badcol, the
NaN-filtered bias dictionary, decay) are never passed to write_matrix,
which receives only the model file path, so main produces exactly the same
outputs with the extraction steps removed, and its outputs do not depend
on the pickle content at all. -/
theorem C10_dead_extraction (resolution : Nat) (chrms : List (String × Nat))
    (pickle pickle2 : PickleBiases)
    (regionData : String → Option BiasesRegion × Nat × List RawTuple) :
    main_run resolution chrms pickle regionData =
      main_run_stripped resolution chrms regionData ∧
    main_run resolution chrms pickle regionData =
      main_run resolution chrms pickle2 regionData :=
  ⟨rfl, rfl⟩
